import Mathlib

/-!
Verification development for the OATT batch channel opener.

Shallow embedding of the core modules:
  * `models.ts`    — rejection policy table, anchor reserve constant, data types
  * `planner.ts`   — eligibility check, signal sort, budget allocation (two
                     historical revisions of `createPlan` are present in the
                     source; both are embedded)
  * `opener.ts`    — error classifier `parseOpenError` and the execution engine
                     `executePlan`

Numbers are sats (`Nat`); timestamps are milliseconds since the epoch (`Int`),
mirroring JavaScript `Date.getTime()` / `Date.now()`.  Rejection reasons are
embedded as `String` because at runtime the TypeScript values are plain JSON
strings and the stored data may carry reasons outside the declared union type
(the planner test feeds the reason string already_open, which no table entry
declares).  A lookup miss in `REJECTION_CONFIG` therefore yields `none`, and
code that dereferences the missing policy is embedded in `Except Unit` (the
`error` case standing for the thrown `TypeError`).
-/

namespace Oatt

set_option maxRecDepth 100000

/-- `models.ts`: per-reason retry policy. `cooldownDays` is optional. -/
structure RejectionPolicy where
  retryable : Bool
  cooldownDays : Option Nat
deriving DecidableEq, Repr

/-- `models.ts` `REJECTION_CONFIG`: the static reason → policy table.  At the
JavaScript runtime the table is an object indexed by an arbitrary string, so
the embedding is a partial lookup returning `none` for undeclared reasons. -/
def REJECTION_CONFIG (reason : String) : Option RejectionPolicy :=
  if reason = "min_channel_size" then some ⟨true, none⟩
  else if reason = "no_anchors" then some ⟨false, none⟩
  else if reason = "failed_to_connect" then some ⟨true, some 1⟩
  else if reason = "not_online" then some ⟨true, some 7⟩
  else if reason = "no_address" then some ⟨false, none⟩
  else if reason = "rejected" then some ⟨false, none⟩
  else if reason = "no_routing" then some ⟨false, none⟩
  else if reason = "custom_requirements" then some ⟨false, none⟩
  else if reason = "coop_close" then some ⟨false, none⟩
  else if reason = "batch_failed" then some ⟨true, some 0⟩
  else if reason = "internal_error" then some ⟨true, some 0⟩
  else none

/-- `models.ts` `ANCHOR_RESERVE`: fixed per-channel reserve in sats. -/
def ANCHOR_RESERVE : Nat := 2500

/-- A stored `Rejection` record (`models.ts`): date in epoch milliseconds,
reason as its runtime string, optional details and learned minimum. -/
structure RejRecord where
  date : Int
  reason : String
  details : Option String
  minChannelSize : Option Nat
deriving DecidableEq, Repr

/-- One prior channel lifecycle with a peer (`models.ts` `ChannelHistory`).
Only `feesEarned` is consumed by the planner; the code defends with
`h.feesEarned ?? 0`, hence the `Option`. -/
structure HistRecord where
  channelId : String
  feesEarned : Option Nat
deriving DecidableEq, Repr

/-- `models.ts` `ChannelCandidate` restricted to the fields the planner and
opener read.  `sources` is the multi-source tag list used by the current
planner revision. -/
structure Candidate where
  pubkey : String
  nodeAlias : String
  sources : List String
  addedAt : Int
  channels : Nat
  capacitySats : Nat
  history : List HistRecord
  rejections : List RejRecord
  minChannelSize : Option Nat
deriving DecidableEq, Repr

/-- The rejection-scanning loop inside `isEligible` (`planner.ts`): walks the
rejection list in order; an undeclared reason makes the policy lookup yield
`undefined` and the subsequent `.retryable` access throw (`Except.error`); a
non-retryable reason returns `false`; a positive cooldown that has not elapsed
returns `false`; otherwise the scan continues. -/
def checkRejections (now : Int) : List RejRecord → Except Unit Bool
  | [] => Except.ok true
  | r :: rs =>
    match REJECTION_CONFIG r.reason with
    | none => Except.error ()
    | some cfg =>
      if cfg.retryable = false then Except.ok false
      else
        match cfg.cooldownDays with
        | some d =>
          if 0 < d ∧ now - r.date < (d : Int) * (24 * 60 * 60 * 1000) then
            Except.ok false
          else checkRejections now rs
        | none => checkRejections now rs

/-- `planner.ts` `isEligible(candidate, openPeerPubkeys)`.  The open-peer
membership test comes first; an empty rejection list short-circuits to `true`;
otherwise the rejection scan runs.  `now` stands for `Date.now()`. -/
def isEligibleRun (c : Candidate) (openPeerPubkeys : List String) (now : Int) :
    Except Unit Bool :=
  if openPeerPubkeys.contains c.pubkey then Except.ok false
  else if c.rejections = [] then Except.ok true
  else checkRejections now c.rejections

/-- Boolean transliteration of the spec's per-rejection condition: the reason
is retryable and, when the policy defines a (positive) cooldown,
`now - rejection.date >= cooldown`.  Used to state the eligibility claim. -/
def rejectionPasses (now : Int) (r : RejRecord) : Bool :=
  match REJECTION_CONFIG r.reason with
  | none => false
  | some p =>
    p.retryable &&
      (match p.cooldownDays with
       | some d =>
         if 0 < d then decide ((d : Int) * (24 * 60 * 60 * 1000) ≤ now - r.date)
         else true
       | none => true)

theorem checkRejections_ok_true_iff (now : Int) (rs : List RejRecord)
    (hknown : ∀ r ∈ rs, (REJECTION_CONFIG r.reason).isSome) :
    checkRejections now rs = Except.ok true ↔ ∀ r ∈ rs, rejectionPasses now r = true := by
  induction rs with
  | nil => simp [checkRejections]
  | cons r rs ih =>
    have hr : (REJECTION_CONFIG r.reason).isSome := hknown r (by simp)
    obtain ⟨cfg, hcfg⟩ := Option.isSome_iff_exists.mp hr
    have ih' := ih (fun x hx => hknown x (by simp [hx]))
    cases hret : cfg.retryable with
    | false =>
      simp only [checkRejections, hcfg, hret, if_pos rfl]
      constructor
      · intro h; cases h
      · intro h
        have hp := h r (by simp)
        simp [rejectionPasses, hcfg, hret] at hp
    | true =>
      cases hcool : cfg.cooldownDays with
      | none =>
        have hcase : checkRejections now (r :: rs) = checkRejections now rs := by
          simp [checkRejections, hcfg, hret, hcool]
        rw [hcase, ih']
        constructor
        · intro h x hx
          rcases List.mem_cons.mp hx with h1 | h1
          · subst h1
            simp [rejectionPasses, hcfg, hret, hcool]
          · exact h x h1
        · intro h x hx; exact h x (by simp [hx])
      | some d =>
        have hcase : checkRejections now (r :: rs) =
            (if 0 < d ∧ now - r.date < (d : Int) * (24 * 60 * 60 * 1000) then
              Except.ok false
            else checkRejections now rs) := by
          simp [checkRejections, hcfg, hret, hcool]
        rw [hcase]
        by_cases hcd : 0 < d ∧ now - r.date < (d : Int) * (24 * 60 * 60 * 1000)
        · rw [if_pos hcd]
          constructor
          · intro h; cases h
          · intro h
            have hp := h r (by simp)
            simp [rejectionPasses, hcfg, hret, hcool, hcd.1] at hp
            omega
        · rw [if_neg hcd, ih']
          constructor
          · intro h x hx
            rcases List.mem_cons.mp hx with h1 | h1
            · subst h1
              by_cases hd0 : 0 < d
              · have hge : (d : Int) * (24 * 60 * 60 * 1000) ≤ now - x.date := by
                  by_contra hlt
                  exact hcd ⟨hd0, by omega⟩
                simp only [rejectionPasses, hcfg, hret, hcool, if_pos hd0,
                  Bool.true_and, decide_eq_true_eq]
                omega
              · simp [rejectionPasses, hcfg, hret, hcool, hd0]
            · exact h x h1
          · intro h x hx; exact h x (by simp [hx])

theorem checkRejections_total (now : Int) (rs : List RejRecord)
    (hknown : ∀ r ∈ rs, (REJECTION_CONFIG r.reason).isSome) :
    ∃ b, checkRejections now rs = Except.ok b := by
  induction rs with
  | nil => exact ⟨true, rfl⟩
  | cons r rs ih =>
    have hr : (REJECTION_CONFIG r.reason).isSome := hknown r (by simp)
    obtain ⟨cfg, hcfg⟩ := Option.isSome_iff_exists.mp hr
    have ih' := ih (fun x hx => hknown x (by simp [hx]))
    cases hret : cfg.retryable with
    | false => exact ⟨false, by simp [checkRejections, hcfg, hret]⟩
    | true =>
      cases hcool : cfg.cooldownDays with
      | none =>
        obtain ⟨b, hb⟩ := ih'
        exact ⟨b, by simp [checkRejections, hcfg, hret, hcool, hb]⟩
      | some d =>
        have hcase : checkRejections now (r :: rs) =
            (if 0 < d ∧ now - r.date < (d : Int) * (24 * 60 * 60 * 1000) then
              Except.ok false
            else checkRejections now rs) := by
          simp [checkRejections, hcfg, hret, hcool]
        by_cases hcd : 0 < d ∧ now - r.date < (d : Int) * (24 * 60 * 60 * 1000)
        · exact ⟨false, by rw [hcase, if_pos hcd]⟩
        · obtain ⟨b, hb⟩ := ih'
          exact ⟨b, by rw [hcase, if_neg hcd, hb]⟩

/-- Example candidate: a single retryable `failed_to_connect` rejection written
at epoch time 0. -/
def exCandidateKnown : Candidate :=
  ⟨"pkA", "aliceNode", ["manual"], 0, 10, 1000000, [], [⟨0, "failed_to_connect", none, none⟩], none⟩

/-- Example candidate carrying the out-of-table rejection reason that the
planner test and the README use. -/
def exCandidateAlreadyOpen : Candidate :=
  ⟨"pkB", "bobNode", ["manual"], 0, 10, 1000000, [], [⟨0, "already_open", none, none⟩], none⟩

/-- C4: `isEligible` returns false whenever the candidate's pubkey is in
`openPeerPubkeys` (checked first, independent of the rejection list); with the
pubkey not open it returns true whenever the rejection list is empty; and
otherwise (all reasons declared, so no lookup throw) it returns true iff every
rejection is retryable and any positive cooldown has elapsed
(`now - rejection.date >= cooldown`). -/
theorem isEligible_cascade (c : Candidate) (openPeers : List String) (now : Int) :
    (openPeers.contains c.pubkey = true →
      isEligibleRun c openPeers now = Except.ok false) ∧
    (openPeers.contains c.pubkey = false → c.rejections = [] →
      isEligibleRun c openPeers now = Except.ok true) ∧
    (openPeers.contains c.pubkey = false →
      (∀ r ∈ c.rejections, (REJECTION_CONFIG r.reason).isSome) →
      (isEligibleRun c openPeers now = Except.ok true ↔
        ∀ r ∈ c.rejections, rejectionPasses now r = true)) := by
  refine ⟨?_, ?_, ?_⟩
  · intro hmem
    simp at hmem
    simp [isEligibleRun, hmem]
  · intro hmem hemp
    simp at hmem
    simp [isEligibleRun, hmem, hemp]
  · intro hmem hknown
    simp at hmem
    by_cases hemp : c.rejections = []
    · simp [isEligibleRun, hmem, hemp]
    · rw [isEligibleRun, if_neg (by simp [hmem]), if_neg hemp]
      exact checkRejections_ok_true_iff now c.rejections hknown

/-- Witness for C4, applying the third clause at a concrete candidate whose
single rejection is a declared, retryable, cooldown-bearing reason. -/
theorem isEligible_cascade_witness :
    isEligibleRun exCandidateKnown [] 172800000 = Except.ok true ↔
      ∀ r ∈ exCandidateKnown.rejections, rejectionPasses 172800000 r = true :=
  (isEligible_cascade exCandidateKnown [] 172800000).2.2 (by decide) (by decide)

/-- C10: the eligibility check is total (returns a boolean rather than
throwing) whenever every stored rejection reason is one of the eleven declared
in `REJECTION_CONFIG`; on a candidate carrying the undeclared reason
already_open (used by the planner test and the README) the policy lookup
yields `undefined` and the check throws instead of returning a boolean. -/
theorem isEligible_partial_totality :
    (∀ (c : Candidate) (openPeers : List String) (now : Int),
      (∀ r ∈ c.rejections, (REJECTION_CONFIG r.reason).isSome) →
      ∃ b, isEligibleRun c openPeers now = Except.ok b) ∧
    isEligibleRun exCandidateAlreadyOpen [] 0 = Except.error () := by
  constructor
  · intro c openPeers now hknown
    by_cases hmem : openPeers.contains c.pubkey = true
    · exact ⟨false, by rw [isEligibleRun, if_pos hmem]⟩
    · by_cases hemp : c.rejections = []
      · exact ⟨true, by rw [isEligibleRun, if_neg hmem, if_pos hemp]⟩
      · obtain ⟨b, hb⟩ := checkRejections_total now c.rejections hknown
        exact ⟨b, by rw [isEligibleRun, if_neg hmem, if_neg hemp, hb]⟩
  · rfl

/-- Witness for C10's totality clause at a concrete candidate with a declared
reason. -/
theorem isEligible_partial_totality_witness :
    ∃ b, isEligibleRun exCandidateKnown [] 0 = Except.ok b :=
  isEligible_partial_totality.1 exCandidateKnown [] 0 (by decide)

/-- `planner.ts` `getEffectiveMinimum`: `max(candidate.minChannelSize ?? 0,
defaultSize)`. -/
def getEffectiveMinimum (c : Candidate) (defaultSize : Nat) : Nat :=
  max (c.minChannelSize.getD 0) defaultSize

/-- Cumulative `feesEarned` over a candidate's history
(`history.reduce((sum, h) => sum + (h.feesEarned ?? 0), 0)`). -/
def feesTotal (c : Candidate) : Nat :=
  (c.history.map (fun h => h.feesEarned.getD 0)).sum

/-- The comparator inside `sortCandidatesBySignal` (`planner.ts`, current
revision): manual before the rest, then higher fees, then more sources, then
higher `capacitySats * channels`, then more recent `addedAt`. -/
def compareSignal (a b : Candidate) : Int :=
  let aManual := a.sources.contains "manual"
  let bManual := b.sources.contains "manual"
  if aManual ∧ ¬ bManual then -1
  else if ¬ aManual ∧ bManual then 1
  else if feesTotal a > feesTotal b then -1
  else if feesTotal a < feesTotal b then 1
  else if a.sources.length > b.sources.length then -1
  else if a.sources.length < b.sources.length then 1
  else if a.capacitySats * a.channels > b.capacitySats * b.channels then -1
  else if a.capacitySats * a.channels < b.capacitySats * b.channels then 1
  else b.addedAt - a.addedAt

/-- `planner.ts` `sortCandidatesBySignal`: JavaScript `Array.prototype.sort`
is a stable sort, and for a consistent comparator the stable sort of a list is
unique, so the embedding may use any stable sort with the relation
`compareSignal a b <= 0`; insertion sort is stable. -/
def sortCandidatesBySignal (l : List Candidate) : List Candidate :=
  l.insertionSort (fun a b => compareSignal a b ≤ 0)

/-- `models.ts` `PlannedChannel`. -/
structure PlannedChannel where
  pubkey : String
  nodeAlias : String
  amount : Nat
  isMinimumEnforced : Bool
deriving DecidableEq, Repr

/-- `models.ts` `OpenPlan`.  `createdAt` holds the `now` argument standing for
`new Date()`. -/
structure OpenPlan where
  createdAt : Int
  budget : Nat
  defaultSize : Nat
  maxSize : Nat
  channels : List PlannedChannel
  totalAmount : Nat
  remainingBudget : Nat
deriving DecidableEq, Repr

/-- The greedy allocation loop shared by both `createPlan` revisions
(`planner.ts`): walk the sorted candidates keeping `remaining`; skip a
candidate whose `effectiveMin + ANCHOR_RESERVE` exceeds `remaining`, otherwise
plan `effectiveMin`, charge `effectiveMin + ANCHOR_RESERVE`, and stop scanning
once `remaining < defaultSize + ANCHOR_RESERVE`.  Returns the planned channels
and the final `remaining`. -/
def allocate (defaultSize : Nat) : List Candidate → Nat → (List PlannedChannel × Nat)
  | [], remaining => ([], remaining)
  | c :: cs, remaining =>
    let effectiveMin := getEffectiveMinimum c defaultSize
    let requiredAmount := effectiveMin + ANCHOR_RESERVE
    if requiredAmount > remaining then allocate defaultSize cs remaining
    else
      let ch : PlannedChannel :=
        ⟨c.pubkey, c.nodeAlias, effectiveMin, decide (effectiveMin > defaultSize)⟩
      let rem2 := remaining - requiredAmount
      if rem2 < defaultSize + ANCHOR_RESERVE then ([ch], rem2)
      else
        let res := allocate defaultSize cs rem2
        (ch :: res.1, res.2)

/-- `candidates.filter(c => isEligible(c, openPeerPubkeys))`: JavaScript
`filter` runs the predicate left to right and the first throw aborts, hence
the `Except`. -/
def filterEligible (openPeerPubkeys : List String) (now : Int) :
    List Candidate → Except Unit (List Candidate)
  | [] => Except.ok []
  | c :: cs =>
    match isEligibleRun c openPeerPubkeys now with
    | Except.error e => Except.error e
    | Except.ok b =>
      match filterEligible openPeerPubkeys now cs with
      | Except.error e => Except.error e
      | Except.ok rest => Except.ok (if b then c :: rest else rest)

/-- `planner.ts` `createPlan` — the current revision (the one the planner test
validates and whose `sortCandidatesBySignal` the current CLI imports): filter
to eligible candidates, drop those whose effective minimum exceeds `maxSize`,
sort by signal, allocate greedily; `totalAmount` is the sum of the planned
funding amounts (`reduce` over `ch.amount`). -/
def createPlanRun (budget defaultSize maxSize : Nat) (candidates : List Candidate)
    (openPeerPubkeys : List String) (now : Int) : Except Unit OpenPlan := do
  let eligible ← filterEligible openPeerPubkeys now candidates
  let fundable := eligible.filter (fun c => getEffectiveMinimum c defaultSize ≤ maxSize)
  let sorted := sortCandidatesBySignal fundable
  let res := allocate defaultSize sorted budget
  pure ⟨now, budget, defaultSize, maxSize, res.1,
    (res.1.map (fun ch => ch.amount)).sum, res.2⟩

/-- The comparator of the other historical `createPlan` revision in
`planner.ts`: manual first, then ascending effective minimum. -/
def compareByMin (defaultSize : Nat) (a b : Candidate) : Int :=
  if a.sources.contains "manual" ∧ ¬ b.sources.contains "manual" then -1
  else if ¬ a.sources.contains "manual" ∧ b.sources.contains "manual" then 1
  else (getEffectiveMinimum a defaultSize : Int) - (getEffectiveMinimum b defaultSize : Int)

/-- The other historical `createPlan` revision in `planner.ts`: identical
filters and allocation loop, but sorted by `compareByMin` and with
`totalAmount := budget - remaining` (anchor reserves folded into
`totalAmount`). -/
def createPlanMinSortRun (budget defaultSize maxSize : Nat) (candidates : List Candidate)
    (openPeerPubkeys : List String) (now : Int) : Except Unit OpenPlan := do
  let eligible ← filterEligible openPeerPubkeys now candidates
  let fundable := eligible.filter (fun c => getEffectiveMinimum c defaultSize ≤ maxSize)
  let sorted := fundable.insertionSort (fun a b => compareByMin defaultSize a b ≤ 0)
  let res := allocate defaultSize sorted budget
  pure ⟨now, budget, defaultSize, maxSize, res.1, budget - res.2, res.2⟩

theorem allocate_budget_split (defaultSize : Nat) (l : List Candidate) :
    ∀ remaining : Nat,
      ((allocate defaultSize l remaining).1.map (fun ch => ch.amount)).sum +
        (allocate defaultSize l remaining).2 +
        ANCHOR_RESERVE * (allocate defaultSize l remaining).1.length = remaining := by
  induction l with
  | nil => intro remaining; simp [allocate]
  | cons c cs ih =>
    intro remaining
    by_cases hreq : getEffectiveMinimum c defaultSize + ANCHOR_RESERVE > remaining
    · simp only [allocate, if_pos hreq]
      exact ih remaining
    · have hle : getEffectiveMinimum c defaultSize + ANCHOR_RESERVE ≤ remaining := by omega
      by_cases hstop : remaining - (getEffectiveMinimum c defaultSize + ANCHOR_RESERVE) <
          defaultSize + ANCHOR_RESERVE
      · simp only [allocate, if_neg hreq, if_pos hstop]
        simp
        omega
      · simp only [allocate, if_neg hreq, if_neg hstop]
        have ihr := ih (remaining - (getEffectiveMinimum c defaultSize + ANCHOR_RESERVE))
        simp only [List.map_cons, List.sum_cons, List.length_cons, Nat.mul_add,
          Nat.mul_one]
        omega

theorem allocate_remaining_le (defaultSize : Nat) (l : List Candidate) (remaining : Nat) :
    (allocate defaultSize l remaining).2 ≤ remaining := by
  have h := allocate_budget_split defaultSize l remaining
  omega

/-- A single default-sized candidate with no rejection history. -/
def exPlainCandidate : Candidate :=
  ⟨"pkP", "peerP", ["manual"], 0, 10, 1000000, [], [], none⟩

/-- The plan the current `createPlan` revision produces for
`budget = 10000, defaultSize = 1000, maxSize = 10000` over
`[exPlainCandidate]`. -/
def exPlanA : OpenPlan :=
  ⟨0, 10000, 1000, 10000, [⟨"pkP", "peerP", 1000, false⟩], 1000, 6500⟩

/-- C2 counterexample: for the current `createPlan` revision the two summands
do not rebuild the budget — one planned channel leaves
`totalAmount + remainingBudget = 7500` on a budget of `10000`, because the
anchor reserve was charged to `remainingBudget` but is absent from
`totalAmount`. -/
theorem createPlan_budget_identity_counterexample :
    (createPlanRun 10000 1000 10000 [exPlainCandidate] [] 0).map
        (fun p => (p.totalAmount + p.remainingBudget, p.budget)) =
      Except.ok (7500, 10000) ∧ (7500 : Nat) ≠ 10000 :=
  ⟨rfl, by decide⟩

/-- C2 (amended): in the current `createPlan` revision the budget identity
holds only after adding the anchor reserve once per planned channel:
`totalAmount + remainingBudget + ANCHOR_RESERVE * channels.length = budget`
(`totalAmount` stores funding amounts only); the other historical revision,
which sets `totalAmount := budget - remaining`, satisfies
`totalAmount + remainingBudget = budget` exactly as the spec states it. -/
theorem createPlan_budget_accounting :
    (∀ (budget defaultSize maxSize : Nat) (candidates : List Candidate)
        (openPeers : List String) (now : Int) (p : OpenPlan),
      createPlanRun budget defaultSize maxSize candidates openPeers now = Except.ok p →
      p.totalAmount + p.remainingBudget + ANCHOR_RESERVE * p.channels.length = p.budget) ∧
    (∀ (budget defaultSize maxSize : Nat) (candidates : List Candidate)
        (openPeers : List String) (now : Int) (p : OpenPlan),
      createPlanMinSortRun budget defaultSize maxSize candidates openPeers now = Except.ok p →
      p.totalAmount + p.remainingBudget = p.budget) := by
  constructor
  · intro budget defaultSize maxSize candidates openPeers now p h
    rcases hres : filterEligible openPeers now candidates with e | l
    · simp [createPlanRun, hres] at h
    · simp [createPlanRun, hres] at h
      subst h
      simpa using allocate_budget_split defaultSize
        (sortCandidatesBySignal (l.filter (fun c => getEffectiveMinimum c defaultSize ≤ maxSize)))
        budget
  · intro budget defaultSize maxSize candidates openPeers now p h
    rcases hres : filterEligible openPeers now candidates with e | l
    · simp [createPlanMinSortRun, hres] at h
    · simp [createPlanMinSortRun, hres] at h
      subst h
      have hle := allocate_remaining_le defaultSize
        ((l.filter (fun c => getEffectiveMinimum c defaultSize ≤ maxSize)).insertionSort
          (fun a b => compareByMin defaultSize a b ≤ 0)) budget
      simp
      omega

/-- Witness for the amended C2, instantiating the first clause at a concrete
run of the current revision. -/
theorem createPlan_budget_accounting_witness :
    exPlanA.totalAmount + exPlanA.remainingBudget +
      ANCHOR_RESERVE * exPlanA.channels.length = exPlanA.budget :=
  createPlan_budget_accounting.1 10000 1000 10000 [exPlainCandidate] [] 0 exPlanA rfl

/-- A manual candidate with a learned 5M minimum. -/
def exBigMinCandidate : Candidate :=
  ⟨"pkBig", "bigPeer", ["manual"], 0, 10, 1000000, [], [], some 5000000⟩

/-- Default-sized non-manual candidate. -/
def exSmallCandidate1 : Candidate :=
  ⟨"pkS1", "smallPeer1", ["graph_distance"], 0, 10, 1000000, [], [], none⟩

/-- Default-sized non-manual candidate. -/
def exSmallCandidate2 : Candidate :=
  ⟨"pkS2", "smallPeer2", ["graph_distance"], 0, 10, 1000000, [], [], none⟩

/-- The candidate set refuting budget-monotonicity of the channel count. -/
def exMonotoneCands : List Candidate :=
  [exBigMinCandidate, exSmallCandidate1, exSmallCandidate2]

/-- C5 counterexample: with a high-signal candidate whose effective minimum is
large, raising the budget from 2,005,000 to 5,002,600 sats makes the greedy
loop afford that candidate first and then stop, shrinking the plan from two
channels to one: the channel count is not monotone in the budget. -/
theorem createPlan_count_monotone_counterexample :
    (2005000 : Nat) ≤ 5002600 ∧
    (createPlanRun 2005000 1000000 10000000 exMonotoneCands [] 0).map
        (fun p => p.channels.length) = Except.ok 2 ∧
    (createPlanRun 5002600 1000000 10000000 exMonotoneCands [] 0).map
        (fun p => p.channels.length) = Except.ok 1 :=
  ⟨by decide, rfl, rfl⟩

theorem allocate_nil_of_uniform_small (defaultSize : Nat) (l : List Candidate)
    (h : ∀ c ∈ l, getEffectiveMinimum c defaultSize = defaultSize)
    (b : Nat) (hb : defaultSize + ANCHOR_RESERVE > b) :
    (allocate defaultSize l b).1 = [] := by
  induction l with
  | nil => simp [allocate]
  | cons c cs ih =>
    have hc : getEffectiveMinimum c defaultSize = defaultSize := h c (by simp)
    have hreq : getEffectiveMinimum c defaultSize + ANCHOR_RESERVE > b := by omega
    simp only [allocate, if_pos hreq]
    exact ih (fun x hx => h x (by simp [hx]))

theorem allocate_length_mono_of_uniform (defaultSize : Nat) (l : List Candidate)
    (h : ∀ c ∈ l, getEffectiveMinimum c defaultSize = defaultSize) :
    ∀ b1 b2 : Nat, b1 ≤ b2 →
      (allocate defaultSize l b1).1.length ≤ (allocate defaultSize l b2).1.length := by
  induction l with
  | nil => intro b1 b2 _; simp [allocate]
  | cons c cs ih =>
    intro b1 b2 hb
    have hc : getEffectiveMinimum c defaultSize = defaultSize := h c (by simp)
    have hcs : ∀ x ∈ cs, getEffectiveMinimum x defaultSize = defaultSize :=
      fun x hx => h x (by simp [hx])
    by_cases h2 : getEffectiveMinimum c defaultSize + ANCHOR_RESERVE > b2
    · have h1 : getEffectiveMinimum c defaultSize + ANCHOR_RESERVE > b1 := by omega
      simp only [allocate, if_pos h1, if_pos h2]
      exact ih hcs b1 b2 hb
    · by_cases h1 : getEffectiveMinimum c defaultSize + ANCHOR_RESERVE > b1
      · -- the smaller budget cannot afford this candidate, nor any later one
        have hnil : (allocate defaultSize cs b1).1 = [] :=
          allocate_nil_of_uniform_small defaultSize cs hcs b1 (by omega)
        simp only [allocate, if_pos h1, if_neg h2, hnil]
        by_cases hstop : b2 - (getEffectiveMinimum c defaultSize + ANCHOR_RESERVE) <
            defaultSize + ANCHOR_RESERVE
        · simp [hstop]
        · simp [hstop]
      · simp only [allocate, if_neg h1, if_neg h2]
        by_cases hstop1 : b1 - (getEffectiveMinimum c defaultSize + ANCHOR_RESERVE) <
            defaultSize + ANCHOR_RESERVE
        · simp only [if_pos hstop1]
          by_cases hstop2 : b2 - (getEffectiveMinimum c defaultSize + ANCHOR_RESERVE) <
              defaultSize + ANCHOR_RESERVE
          · simp [hstop2]
          · simp [hstop2]
        · have hstop2 : ¬ (b2 - (getEffectiveMinimum c defaultSize + ANCHOR_RESERVE) <
              defaultSize + ANCHOR_RESERVE) := by omega
          simp only [if_neg hstop1, if_neg hstop2, List.length_cons,
            Nat.add_le_add_iff_right]
          exact ih hcs _ _ (by omega)

theorem filterEligible_subset (openPeers : List String) (now : Int) :
    ∀ (cands l : List Candidate),
      filterEligible openPeers now cands = Except.ok l → ∀ c ∈ l, c ∈ cands := by
  intro cands
  induction cands with
  | nil =>
    intro l h c hc
    simp [filterEligible] at h
    subst h
    cases hc
  | cons x xs ih =>
    intro l h c hc
    rcases he : isEligibleRun x openPeers now with e | b
    · simp [filterEligible, he] at h
    · rcases hrest : filterEligible openPeers now xs with e | rest
      · simp [filterEligible, he, hrest] at h
      · simp [filterEligible, he, hrest] at h
        subst h
        cases b with
        | true =>
          simp at hc
          rcases hc with hc | hc
          · simp [hc]
          · exact List.mem_cons_of_mem x (ih rest hrest c hc)
        | false =>
          simp at hc
          exact List.mem_cons_of_mem x (ih rest hrest c hc)

/-- C5 (amended): the channel count of the current `createPlan` is
non-decreasing in the budget when all candidates share the same effective
minimum (no learned minimum exceeding `defaultSize`); with differing effective
minimums the counterexample applies. -/
theorem createPlan_count_monotone_uniform (defaultSize maxSize : Nat)
    (candidates : List Candidate) (openPeers : List String) (now : Int)
    (huniform : ∀ c ∈ candidates, getEffectiveMinimum c defaultSize = defaultSize)
    (b1 b2 : Nat) (p1 p2 : OpenPlan) (hb : b1 ≤ b2)
    (h1 : createPlanRun b1 defaultSize maxSize candidates openPeers now = Except.ok p1)
    (h2 : createPlanRun b2 defaultSize maxSize candidates openPeers now = Except.ok p2) :
    p1.channels.length ≤ p2.channels.length := by
  rcases hres : filterEligible openPeers now candidates with e | l
  · simp [createPlanRun, hres] at h1
  · simp [createPlanRun, hres] at h1 h2
    subst h1
    subst h2
    have hmem : ∀ c ∈ sortCandidatesBySignal
        (l.filter (fun c => getEffectiveMinimum c defaultSize ≤ maxSize)),
        getEffectiveMinimum c defaultSize = defaultSize := by
      intro c hc
      have hc2 : c ∈ l.filter (fun c => getEffectiveMinimum c defaultSize ≤ maxSize) :=
        (List.perm_insertionSort (fun a b => compareSignal a b ≤ 0) _).mem_iff.mp hc
      have hc3 : c ∈ l := List.mem_of_mem_filter hc2
      exact huniform c (filterEligible_subset openPeers now candidates l hres c hc3)
    exact allocate_length_mono_of_uniform defaultSize _ hmem b1 b2 hb

/-- Plan of the current revision at budget 0 over one default-sized
candidate. -/
def exPlanLow : OpenPlan := ⟨0, 0, 1000000, 10000000, [], 0, 0⟩

/-- Plan of the current revision at budget 2,000,000 over one default-sized
candidate. -/
def exPlanHigh : OpenPlan :=
  ⟨0, 2000000, 1000000, 10000000, [⟨"pkS1", "smallPeer1", 1000000, false⟩], 1000000, 997500⟩

/-- Witness for the amended C5 at a concrete uniform candidate set. -/
theorem createPlan_count_monotone_uniform_witness :
    exPlanLow.channels.length ≤ exPlanHigh.channels.length :=
  createPlan_count_monotone_uniform 1000000 10000000 [exSmallCandidate1] [] 0
    (by decide) 0 2000000 exPlanLow exPlanHigh (by decide) rfl rfl

/-- `s.startsWith pat` on character lists. -/
def startsWithL : List Char → List Char → Bool
  | _, [] => true
  | [], _ :: _ => false
  | c :: cs, p :: ps => c == p && startsWithL cs ps

/-- Index of the leftmost occurrence of `pat` in `s` (JavaScript
`String.prototype.indexOf` / leftmost regex literal match). -/
def findSubIdx : List Char → List Char → Option Nat
  | [], pat => if startsWithL [] pat then some 0 else none
  | c :: cs, pat =>
    if startsWithL (c :: cs) pat then some 0
    else (findSubIdx cs pat).map (fun i => i + 1)

/-- JavaScript `String.prototype.includes` (case-sensitive). -/
def containsSub (s pat : List Char) : Bool := (findSubIdx s pat).isSome

/-- `parseInt` of a digit run. -/
def digitsToNat (l : List Char) : Nat :=
  l.foldl (fun n c => n * 10 + (c.toNat - 48)) 0

/-- First maximal digit run at or after the head, as a number: the value the
capture group `(\d+)` takes after the lazy gap `.*?`. -/
def firstNumFrom : List Char → Option Nat
  | [] => none
  | c :: cs =>
    if c.isDigit then some (digitsToNat ((c :: cs).takeWhile Char.isDigit))
    else firstNumFrom cs

/-- Leftmost match of the pattern literal-then-lazy-gap-then-digits
(`/lit.*?(\d+)/i` applied to the lowercased message): the digits captured are
the first digit run after the first occurrence of the literal, and if no digit
follows that occurrence none follows any later one either, so the regex fails
entirely. -/
def matchNumAfter (lower pat : List Char) : Option Nat :=
  match findSubIdx lower pat with
  | none => none
  | some i => firstNumFrom (lower.drop (i + pat.length))

/-- `[0-9a-fA-F]`. -/
def hexDigitCh (c : Char) : Bool :=
  c.isDigit || ('a' ≤ c && c ≤ 'f') || ('A' ≤ c && c ≤ 'F')

/-- Does `/(02|03)[0-9a-fA-F]{64}/` match at the head of the list? -/
def pubkeyHere : List Char → Bool
  | '0' :: d :: rest =>
    (d == '2' || d == '3') &&
      ((rest.take 64).length == 64 && (rest.take 64).all hexDigitCh)
  | _ => false

/-- Leftmost 66-character compressed-pubkey match in the message. -/
def findPubkeyL : List Char → Option (List Char)
  | [] => none
  | c :: cs =>
    if pubkeyHere (c :: cs) then some ((c :: cs).take 66) else findPubkeyL cs

/-- Result shape of `parseOpenError` (`opener.ts`), reason as its runtime
string. -/
structure ParsedOpenError where
  reason : String
  minSize : Option Nat
  details : String
  pubkey : Option String
deriving DecidableEq, Repr

/-- The heterogeneous error value fed to `parseOpenError`:
  * `ofString s`  — a plain string (`String(error) = s`);
  * `ofError m`   — an `Error` instance with `message = m`;
  * `ofObject j`  — a non-array object whose `JSON.stringify` is `j`;
  * `ofArray c m ctx` — an `[code, message, context]` triple of length ≥ 2,
    `ctx` the stringification of the optional third element. -/
inductive RawError where
  | ofString (s : String)
  | ofError (message : String)
  | ofObject (json : String)
  | ofArray (code msg : String) (ctx : Option String)
deriving DecidableEq, Repr

/-- The message-normalisation prologue of `parseOpenError`: `Error` instances
contribute their message, other objects their `JSON.stringify`, everything
else `String(error)`; an ln-service error array `[code, message, context]`
overrides this with the template concatenation (note the trailing space when
no context is present, exactly as the template literal produces). -/
def rawMessage : RawError → String
  | RawError.ofString s => s
  | RawError.ofError m => m
  | RawError.ofObject j => j
  | RawError.ofArray c m ctx => c ++ " " ++ m ++ " " ++ ctx.getD ""

/-- `opener.ts` `parseOpenError` (the revision in the source file): pubkey
extraction, the three minimum-size regexes, then the ordered `includes`
chain.  The regexes are case-insensitive (run on the lowercased message); the
`includes` checks are case-sensitive, as in the source. -/
def parseOpenError (e : RawError) : ParsedOpenError :=
  let message := rawMessage e
  let msgL := message.data
  let lower := msgL.map Char.toLower
  let pk := (findPubkeyL msgL).map (fun l => String.mk (l.map Char.toLower))
  match (matchNumAfter lower "channel size".data).orElse
      (fun _ => (matchNumAfter lower "minimum".data).orElse
        (fun _ => matchNumAfter lower "at least".data)) with
  | some n => ⟨"min_channel_size", some n, message, pk⟩
  | none =>
    if containsSub msgL "anchor".data || containsSub msgL "feature".data then
      ⟨"no_anchors", none, message, pk⟩
    else if containsSub msgL "connect".data || containsSub msgL "dial".data ||
        containsSub msgL "timeout".data then
      ⟨"failed_to_connect", none, message, pk⟩
    else if containsSub msgL "offline".data || containsSub msgL "not online".data then
      ⟨"not_online", none, message, pk⟩
    else if containsSub msgL "no address".data || containsSub msgL "no route".data then
      ⟨"no_address", none, message, pk⟩
    else if containsSub msgL "reject".data || containsSub msgL "denied".data ||
        containsSub msgL "refused".data then
      ⟨"rejected", none, message, pk⟩
    else if containsSub msgL "internal".data || containsSub msgL "err".data then
      ⟨"internal_error", none, message, pk⟩
    else
      ⟨"rejected", none, message, pk⟩

/-- The BTC-denominated minimum-size message from `opener.test.ts`. -/
def exBtcMsg : String :=
  "chan size of 0.01000000 BTC is below min chan size of 0.05000000 BTC"

/-- C6: evaluating the classifier in the source at the BTC-denominated
message.  No rule of the source revision matches (`channel size`, `minimum`
and `at least` are all absent, and no `includes` token fires), so it falls
through to the default `rejected` with no detected minimum — not
`min_channel_size` with `minSize = 5,000,000` as the claim and
`opener.test.ts` require. -/
theorem parseOpenError_btc_divergence :
    parseOpenError (RawError.ofString exBtcMsg) =
      ⟨"rejected", none, exBtcMsg, none⟩ := by
  rfl

/-- The funding-overhead message from `opener.test.ts`. -/
def exOverheadMsg : String :=
  "funding 1000000sat, reserves 10000sat/10000sat, channel capacity is 979056sat, which is below 1000000sat"

/-- C7: evaluating the classifier in the source at the funding-overhead
message.  The source revision has no `funding Nsat` / `channel capacity is
Msat` overhead correction at all, and none of its rules match this message,
so it returns the default `rejected` with no minimum — not `min_channel_size`
with `minSize = 1,030,944` as the claim and `opener.test.ts` require. -/
theorem parseOpenError_overhead_divergence :
    parseOpenError (RawError.ofString exOverheadMsg) =
      ⟨"rejected", none, exOverheadMsg, none⟩ := by
  rfl

/-- `JSON.stringify` of the object from `opener.test.ts`. -/
def exCherryJson : String := "\x7b\"some_field\":\"cherry\"\x7d"

/-- C8: evaluating the classifier in the source at the stringified
`\x7bsome_field: "cherry"\x7d` object: the bare `includes("err")` check fires on
the `err` inside `cherry`, so the source classifies it `internal_error` —
exactly the false positive the claim and `opener.test.ts` say must not
happen (expected fallback: `rejected`). -/
theorem parseOpenError_err_substring_divergence :
    parseOpenError (RawError.ofObject exCherryJson) =
      ⟨"internal_error", none, exCherryJson, none⟩ ∧
    ("internal_error" : String) ≠ "rejected" := by
  exact ⟨by rfl, by decide⟩

/-- Node info relevant to the connectivity probe (`getNodeInfo`). -/
structure NodeInfoE where
  addresses : List String
deriving DecidableEq, Repr

/-- A pending channel handle returned by the batched `openChannels` call. -/
structure PendingE where
  id : String
  address : String
  tokens : Nat
deriving DecidableEq, Repr

/-- Oracle for a single execution trace of `executePlan`'s external calls:
already-connected peers (`getConnectedPeers`), per-peer graph info
(`getNodeInfo`, `none` when the lookup throws or finds nothing), the outcome
of each `connectPeer` attempt (`none` = success, `some e` = thrown error), and
the outcomes of the four funding-protocol calls
(`openChannels`, `fundPsbt`, `signPsbt`, `fundPendingChannels`). -/
structure ExecEnv where
  connectedPeers : List String
  nodeInfo : String → Option NodeInfoE
  connectAttempt : String → String → Option RawError
  openOutcome : Except RawError (List PendingE)
  fundOutcome : Except RawError String
  signOutcome : Except RawError String
  finalizeOutcome : Except RawError Unit

/-- `opener.ts` `ChannelOpenAttempt`. -/
structure Attempt where
  pubkey : String
  nodeAlias : String
  amount : Nat
  pendingId : Option String
  address : Option String
deriving DecidableEq, Repr

/-- The attempt materialised from a planned channel. -/
def mkAttempt (ch : PlannedChannel) : Attempt :=
  ⟨ch.pubkey, ch.nodeAlias, ch.amount, none, none⟩

/-- The address loop of the connectivity probe: try each known address in
order with the fixed timeout; on failure remember
`parseOpenError(err).details` as the last error; if every address fails the
attempt fails `failed_to_connect` with the last error appended. -/
def tryAddresses (env : ExecEnv) (pk : String) :
    List String → String → Option (String × String)
  | [], lastError => some ("failed_to_connect", "Failed to connect: " ++ lastError)
  | ad :: rest, _ =>
    match env.connectAttempt pk ad with
    | none => none
    | some e => tryAddresses env pk rest (parseOpenError e).details

/-- Verification of one attempt (`opener.ts` step 1/5): skip probing when
already connected; fail `not_online` when the node is absent from the graph,
`no_address` when it has no addresses; otherwise run the address loop.
Returns the attempt paired with `none` (success) or the failure
`(reason, errorMsg)`. -/
def verifyOne (env : ExecEnv) (a : Attempt) : Attempt × Option (String × String) :=
  if env.connectedPeers.contains a.pubkey then (a, none)
  else
    match env.nodeInfo a.pubkey with
    | none => (a, some ("not_online", "Node not found in graph"))
    | some info =>
      if info.addresses = [] then (a, some ("no_address", "Node has no addresses in graph"))
      else (a, tryAddresses env a.pubkey info.addresses "Failed to connect")

/-- The batched verification loop (`BATCH_SIZE = 3`): slices of three probed
concurrently (`Promise.all` preserves slice order), batches sequential, so
batching amounts to probing three attempts at a time in order. -/
def verifyBatches (env : ExecEnv) : List Attempt →
    List (Attempt × Option (String × String))
  | [] => []
  | [a] => [verifyOne env a]
  | [a, b] => [verifyOne env a, verifyOne env b]
  | a :: b :: c :: rest =>
    verifyOne env a :: verifyOne env b :: verifyOne env c :: verifyBatches env rest

theorem verifyBatches_eq_map (env : ExecEnv) (l : List Attempt) :
    verifyBatches env l = l.map (verifyOne env) := by
  suffices h : ∀ (n : Nat) (l : List Attempt), l.length ≤ n →
      verifyBatches env l = l.map (verifyOne env) from h l.length l le_rfl
  intro n
  induction n with
  | zero =>
    intro l hl
    have hnil : l = [] := List.eq_nil_of_length_eq_zero (Nat.le_zero.mp hl)
    subst hnil
    simp [verifyBatches]
  | succ n ih =>
    intro l hl
    match l with
    | [] => simp [verifyBatches]
    | [a] => simp [verifyBatches]
    | [a, b] => simp [verifyBatches]
    | a :: b :: c :: rest =>
      have hrest := ih rest (by simp at hl; omega)
      simp [verifyBatches, hrest]

/-- A rejection persisted through `addRejection` during `executePlan`
(`new Date()` not modelled). -/
structure RejWrite where
  pubkey : String
  reason : String
  details : String
  minChannelSize : Option Nat
deriving DecidableEq, Repr

/-- `models.ts` `OpenResult`, reason as its runtime string. -/
structure OpenResult where
  pubkey : String
  success : Bool
  channelId : Option String
  error : Option String
  rejectionReason : Option String
  detectedMinimum : Option Nat
deriving DecidableEq, Repr

/-- What `executePlan` leaves behind: the returned result list and the
rejections written to the candidate store. -/
structure ExecOut where
  results : List OpenResult
  rejections : List RejWrite
deriving DecidableEq, Repr

/-- The index-wise assignment of pending-channel handles to the surviving
attempts (`viableAttempts[i].pendingId = pendingChannels[i].id`). -/
def assignPendings : List Attempt → List PendingE → List Attempt
  | [], _ => []
  | a :: as, [] => a :: as
  | a :: as, p :: ps =>
    ⟨a.pubkey, a.nodeAlias, a.amount, some p.id, some p.address⟩ :: assignPendings as ps

/-- The stages of `executePlan` after connectivity verification, given the
accumulated verification-failure results/rejections and the surviving
attempts: the empty-batch early return; the single batched `openChannels`
call, whose failure is classified and attributed per attempt by
`isImplicated = !parsed.pubkey || parsed.pubkey === attempt.pubkey` (rejection
written only when implicated, `batch_failed` result otherwise); then the
strictly sequential `fundPsbt` → `signPsbt` → `fundPendingChannels` steps,
each failure marking every surviving attempt failed `internal_error`.
History writes and best-effort stub cancellation have no bearing on the
returned value and are not modelled. -/
def execAfterVerify (env : ExecEnv) (failRes : List OpenResult)
    (failRej : List RejWrite) (viable : List Attempt) : ExecOut :=
  if viable = [] then ⟨failRes, failRej⟩
  else
    match env.openOutcome with
    | Except.error e =>
      let parsed := parseOpenError e
      let initRes := viable.map (fun a =>
        let impl := parsed.pubkey.isNone || parsed.pubkey == some a.pubkey
        (⟨a.pubkey, false, none,
          some (if impl then parsed.details
            else "Batch cancelled due to node being offline or other failure"),
          some (if impl then parsed.reason else "batch_failed"),
          if impl then parsed.minSize else none⟩ : OpenResult))
      let initRej := (viable.filter
          (fun a => parsed.pubkey.isNone || parsed.pubkey == some a.pubkey)).map
        (fun a => (⟨a.pubkey, parsed.reason, parsed.details, parsed.minSize⟩ : RejWrite))
      ⟨failRes ++ initRes, failRej ++ initRej⟩
    | Except.ok pendings =>
      let funded := assignPendings viable pendings
      match env.fundOutcome with
      | Except.error e =>
        ⟨failRes ++ funded.map (fun a =>
          ⟨a.pubkey, false, none,
            some ("Funding failed: " ++ (parseOpenError e).details),
            some "internal_error", none⟩), failRej⟩
      | Except.ok _ =>
        match env.signOutcome with
        | Except.error e =>
          ⟨failRes ++ funded.map (fun a =>
            ⟨a.pubkey, false, none,
              some ("Signing failed: " ++ (parseOpenError e).details),
              some "internal_error", none⟩), failRej⟩
        | Except.ok _ =>
          match env.finalizeOutcome with
          | Except.ok _ =>
            ⟨failRes ++ funded.map (fun a =>
              ⟨a.pubkey, true, a.pendingId, none, none, none⟩), failRej⟩
          | Except.error e =>
            ⟨failRes ++ funded.map (fun a =>
              ⟨a.pubkey, false, none,
                some ("Broadcast failed: " ++ (parseOpenError e).details),
                some "internal_error", none⟩), failRej⟩

/-- `opener.ts` `executePlan` (the revision in the source file, which has no
re-planning loop): dry-run short-circuit; batched connectivity verification
with a failure result and a rejection write per failed attempt; then
`execAfterVerify` on the surviving attempts. -/
def executePlanRun (env : ExecEnv) (plan : OpenPlan) (dryRun : Bool) : ExecOut :=
  let attempts := plan.channels.map mkAttempt
  if dryRun then
    ⟨attempts.map (fun a =>
      ⟨a.pubkey, true, some ("dry-run:" ++ String.mk (a.pubkey.data.take 8)),
        none, none, none⟩), []⟩
  else
    let ver := verifyBatches env attempts
    let failedVer := ver.filter (fun v => v.2.isSome)
    let failRes : List OpenResult := failedVer.map (fun v =>
      ⟨v.1.pubkey, false, none, some (v.2.getD ("", "")).2, some (v.2.getD ("", "")).1, none⟩)
    let failRej : List RejWrite := failedVer.map (fun v =>
      ⟨v.1.pubkey, (v.2.getD ("", "")).1, (v.2.getD ("", "")).2, none⟩)
    let viable := (ver.filter (fun v => v.2.isNone)).map (fun v => v.1)
    execAfterVerify env failRes failRej viable

theorem verifyOne_fst (env : ExecEnv) (a : Attempt) : (verifyOne env a).1 = a := by
  unfold verifyOne
  split
  · rfl
  · split
    · rfl
    · split
      · rfl
      · rfl

theorem assignPendings_map_pubkey (l : List Attempt) (ps : List PendingE) :
    (assignPendings l ps).map (fun a => a.pubkey) = l.map (fun a => a.pubkey) := by
  induction l generalizing ps with
  | nil => simp [assignPendings]
  | cons a as ih =>
    cases ps with
    | nil => simp [assignPendings]
    | cons p ps' => simp [assignPendings, ih]

theorem verSplit_perm (l : List (Attempt × Option (String × String))) :
    ((l.filter (fun v => v.2.isSome)).map (fun v => v.1.pubkey) ++
      (l.filter (fun v => v.2.isNone)).map (fun v => v.1.pubkey)).Perm
      (l.map (fun v => v.1.pubkey)) := by
  have hfilter : l.filter (fun v => v.2.isNone) = l.filter (fun v => !(v.2.isSome)) := by
    apply List.filter_congr
    intro v _
    cases h : v.2 <;> simp [h]
  rw [hfilter, ← List.map_append]
  exact (List.filter_append_perm (fun v => v.2.isSome) l).map _

theorem execAfterVerify_results_pubkeys (env : ExecEnv) (failRes : List OpenResult)
    (failRej : List RejWrite) (viable : List Attempt) :
    (execAfterVerify env failRes failRej viable).results.map (fun r => r.pubkey) =
      failRes.map (fun r => r.pubkey) ++ viable.map (fun a => a.pubkey) := by
  unfold execAfterVerify
  by_cases hv : viable = []
  · simp [hv]
  · simp only [if_neg hv]
    cases env.openOutcome with
    | error e => simp [List.map_map]
    | ok pendings =>
      cases env.fundOutcome with
      | error e =>
        simp only [List.map_append, List.map_map]
        congr 1
        exact assignPendings_map_pubkey viable pendings
      | ok psbt =>
        cases env.signOutcome with
        | error e =>
          simp only [List.map_append, List.map_map]
          congr 1
          exact assignPendings_map_pubkey viable pendings
        | ok signed =>
          cases env.finalizeOutcome with
          | ok u =>
            simp only [List.map_append, List.map_map]
            congr 1
            exact assignPendings_map_pubkey viable pendings
          | error e =>
            simp only [List.map_append, List.map_map]
            congr 1
            exact assignPendings_map_pubkey viable pendings

/-- C9: on every terminal path of `executePlan` — dry-run, empty surviving
batch, `openChannels` failure, fund/sign failure, broadcast success or
failure — the returned results carry exactly the planned pubkeys (one result
per planned channel, as a permutation with multiplicity), and when the
planned pubkeys are distinct each appears in the results exactly once. -/
theorem executePlan_results_one_per_channel (env : ExecEnv) (plan : OpenPlan)
    (dryRun : Bool) :
    ((executePlanRun env plan dryRun).results.map (fun r => r.pubkey)).Perm
      (plan.channels.map (fun ch => ch.pubkey)) ∧
    ((plan.channels.map (fun ch => ch.pubkey)).Nodup →
      ∀ pk ∈ plan.channels.map (fun ch => ch.pubkey),
        ((executePlanRun env plan dryRun).results.map (fun r => r.pubkey)).count pk = 1) := by
  have hperm : ((executePlanRun env plan dryRun).results.map (fun r => r.pubkey)).Perm
      (plan.channels.map (fun ch => ch.pubkey)) := by
    cases dryRun with
    | true =>
      rw [show (executePlanRun env plan true).results =
          (plan.channels.map mkAttempt).map (fun a =>
            (⟨a.pubkey, true, some ("dry-run:" ++ String.mk (a.pubkey.data.take 8)),
              none, none, none⟩ : OpenResult)) from rfl]
      rw [List.map_map, List.map_map]
      exact List.Perm.refl _
    | false =>
      rw [show executePlanRun env plan false =
          execAfterVerify env
            (((verifyBatches env (plan.channels.map mkAttempt)).filter
                (fun v => v.2.isSome)).map (fun v =>
              (⟨v.1.pubkey, false, none, some (v.2.getD ("", "")).2,
                some (v.2.getD ("", "")).1, none⟩ : OpenResult)))
            (((verifyBatches env (plan.channels.map mkAttempt)).filter
                (fun v => v.2.isSome)).map (fun v =>
              (⟨v.1.pubkey, (v.2.getD ("", "")).1, (v.2.getD ("", "")).2, none⟩ : RejWrite)))
            (((verifyBatches env (plan.channels.map mkAttempt)).filter
                (fun v => v.2.isNone)).map (fun v => v.1)) from rfl]
      rw [verifyBatches_eq_map, execAfterVerify_results_pubkeys]
      have hsplit := verSplit_perm ((plan.channels.map mkAttempt).map (verifyOne env))
      have hL : ((plan.channels.map mkAttempt).map (verifyOne env)).map
          (fun v => v.1.pubkey) = plan.channels.map (fun ch => ch.pubkey) := by
        rw [List.map_map, List.map_map]
        refine List.map_congr_left ?_
        intro ch _
        show ((verifyOne env (mkAttempt ch)).1).pubkey = ch.pubkey
        rw [verifyOne_fst]
        rfl
      rw [hL] at hsplit
      simp only [List.map_map] at hsplit ⊢
      exact hsplit
  refine ⟨hperm, ?_⟩
  intro hnd pk hpk
  rw [hperm.count_eq]
  exact List.count_eq_one_of_mem hnd hpk

/-- Environment trace where every planned peer is already connected and the
whole funding protocol succeeds. -/
def exEnvAllOk : ExecEnv :=
  ⟨["pkA", "pkB"], fun _ => none, fun _ _ => none, Except.ok [],
    Except.ok "psbt", Except.ok "signed", Except.ok ()⟩

/-- A two-channel plan over the connected peers. -/
def exPlanTwoChannels : OpenPlan :=
  ⟨0, 2005000, 1000000, 10000000,
    [⟨"pkA", "aliceNode", 1000000, false⟩, ⟨"pkB", "bobNode", 1000000, false⟩],
    2000000, 0⟩

/-- Witness for C9's distinct-pubkey clause at a concrete run. -/
theorem executePlan_results_one_per_channel_witness :
    ((executePlanRun exEnvAllOk exPlanTwoChannels false).results.map
      (fun r => r.pubkey)).count "pkA" = 1 :=
  (executePlan_results_one_per_channel exEnvAllOk exPlanTwoChannels false).2
    (by decide) "pkA" (by decide)

/-- Environment trace where both peers are connected but the batched
`openChannels` call fails with a message that implicates no peer (no pubkey
in the classified error). -/
def exEnvBatchFail : ExecEnv :=
  ⟨["pkA", "pkB"], fun _ => none, fun _ _ => none,
    Except.error (RawError.ofString "insufficient funds"),
    Except.ok "psbt", Except.ok "signed", Except.ok ()⟩

/-- C3 counterexample: when the classified `openChannels` error carries no
pubkey, the engine does not abort without per-peer writes — it treats every
verified peer as implicated and persists a rejection for each of them, then
returns the failure results normally. -/
theorem initiate_nonattributable_counterexample :
    (parseOpenError (RawError.ofString "insufficient funds")).pubkey = none ∧
    (executePlanRun exEnvBatchFail exPlanTwoChannels false).rejections =
      [⟨"pkA", "rejected", "insufficient funds", none⟩,
       ⟨"pkB", "rejected", "insufficient funds", none⟩] := by
  exact ⟨rfl, rfl⟩

/-- C3 (amended): when the single batched `openChannels` call fails (all
planned peers having verified), a rejection is persisted exactly for the
peers the classified error implicates, where a peer is implicated iff the
error names its pubkey or names no pubkey at all; in particular when no
pubkey is extracted every peer receives a persisted rejection with the
classified reason, and the batch returns its failure results rather than
aborting. -/
theorem initiate_failure_attribution (env : ExecEnv) (plan : OpenPlan) (e : RawError)
    (hconn : ∀ ch ∈ plan.channels, env.connectedPeers.contains ch.pubkey = true)
    (hne : plan.channels ≠ [])
    (hopen : env.openOutcome = Except.error e) :
    (executePlanRun env plan false).rejections =
      (plan.channels.filter (fun ch => (parseOpenError e).pubkey.isNone ||
          (parseOpenError e).pubkey == some ch.pubkey)).map
        (fun ch => (⟨ch.pubkey, (parseOpenError e).reason, (parseOpenError e).details,
          (parseOpenError e).minSize⟩ : RejWrite)) ∧
    ((parseOpenError e).pubkey = none →
      (executePlanRun env plan false).rejections.length = plan.channels.length) := by
  have hver : ∀ a ∈ plan.channels.map mkAttempt, verifyOne env a = (a, none) := by
    intro a ha
    obtain ⟨ch, hch, rfl⟩ := List.mem_map.mp ha
    unfold verifyOne
    have hc : env.connectedPeers.contains (mkAttempt ch).pubkey = true := hconn ch hch
    rw [if_pos hc]
  have hL : (plan.channels.map mkAttempt).map (verifyOne env) =
      (plan.channels.map mkAttempt).map (fun a => (a, none)) :=
    List.map_congr_left hver
  have hrun : executePlanRun env plan false =
      execAfterVerify env
        ((((plan.channels.map mkAttempt).map (verifyOne env)).filter
            (fun v => v.2.isSome)).map (fun v =>
          (⟨v.1.pubkey, false, none, some (v.2.getD ("", "")).2,
            some (v.2.getD ("", "")).1, none⟩ : OpenResult)))
        ((((plan.channels.map mkAttempt).map (verifyOne env)).filter
            (fun v => v.2.isSome)).map (fun v =>
          (⟨v.1.pubkey, (v.2.getD ("", "")).1, (v.2.getD ("", "")).2, none⟩ : RejWrite)))
        ((((plan.channels.map mkAttempt).map (verifyOne env)).filter
            (fun v => v.2.isNone)).map (fun v => v.1)) := by
    rw [show executePlanRun env plan false =
        execAfterVerify env
          (((verifyBatches env (plan.channels.map mkAttempt)).filter
              (fun v => v.2.isSome)).map (fun v =>
            (⟨v.1.pubkey, false, none, some (v.2.getD ("", "")).2,
              some (v.2.getD ("", "")).1, none⟩ : OpenResult)))
          (((verifyBatches env (plan.channels.map mkAttempt)).filter
              (fun v => v.2.isSome)).map (fun v =>
            (⟨v.1.pubkey, (v.2.getD ("", "")).1, (v.2.getD ("", "")).2, none⟩ : RejWrite)))
          (((verifyBatches env (plan.channels.map mkAttempt)).filter
              (fun v => v.2.isNone)).map (fun v => v.1)) from rfl]
    rw [verifyBatches_eq_map]
  rw [hrun, hL]
  have hfailnil : (((plan.channels.map mkAttempt).map (fun a => (a, none))).filter
      (fun (v : Attempt × Option (String × String)) => v.2.isSome)) = [] := by
    rw [List.filter_eq_nil_iff]
    intro v hv
    obtain ⟨a, _, rfl⟩ := List.mem_map.mp hv
    simp
  have hviable : ((((plan.channels.map mkAttempt).map (fun a => (a, none))).filter
      (fun (v : Attempt × Option (String × String)) => v.2.isNone)).map (fun v => v.1)) =
      plan.channels.map mkAttempt := by
    rw [List.filter_eq_self.mpr (by
      intro v hv
      obtain ⟨a, _, rfl⟩ := List.mem_map.mp hv
      simp)]
    rw [List.map_map]
    exact List.map_id _
  rw [hfailnil, hviable]
  simp only [List.map_nil]
  have hvne : plan.channels.map mkAttempt ≠ [] := by
    intro hcon
    exact hne (List.map_eq_nil_iff.mp hcon)
  have hrej : (execAfterVerify env [] [] (plan.channels.map mkAttempt)).rejections =
      (plan.channels.filter (fun ch => (parseOpenError e).pubkey.isNone ||
          (parseOpenError e).pubkey == some ch.pubkey)).map
        (fun ch => (⟨ch.pubkey, (parseOpenError e).reason, (parseOpenError e).details,
          (parseOpenError e).minSize⟩ : RejWrite)) := by
    unfold execAfterVerify
    rw [if_neg hvne, hopen]
    show ([] : List RejWrite) ++
        (((plan.channels.map mkAttempt).filter
            (fun a => (parseOpenError e).pubkey.isNone ||
              (parseOpenError e).pubkey == some a.pubkey)).map
          (fun a => (⟨a.pubkey, (parseOpenError e).reason, (parseOpenError e).details,
            (parseOpenError e).minSize⟩ : RejWrite))) = _
    rw [List.nil_append, List.filter_map, List.map_map]
    rfl
  constructor
  · exact hrej
  · intro hnone
    rw [hrej]
    rw [List.length_map, List.filter_length_eq_length.mpr ?_]
    intro ch _
    simp [hnone]

/-- Witness for the amended C3: with two verified peers and a
non-attributable error, every planned peer receives a persisted rejection. -/
theorem initiate_failure_attribution_witness :
    (executePlanRun exEnvBatchFail exPlanTwoChannels false).rejections.length =
      exPlanTwoChannels.channels.length :=
  (initiate_failure_attribution exEnvBatchFail exPlanTwoChannels
    (RawError.ofString "insufficient funds") (by decide) (by decide) rfl).2 rfl

/-- `MAX_ITERATIONS`: the hard cap on verify/re-plan cycles of the
convergence loop described by the spec. -/
def MAX_ITERATIONS : Nat := 5

/-- Modelled from the spec: the convergence loop of the Execution Engine
(spec §4.4 / README "Convergence Loop") is not present in the source files
provided — no revision of `opener.ts` under src/ re-plans or mentions
`MAX_ITERATIONS`; only the spec, the README and the newer CLI caller (which
passes `availableCandidates`/`openPeerPubkeys`/`defaultSize`/`maxSize` to
`executePlan`) refer to it.  The oracle gives, per iteration, the freshly
reloaded candidate store (so just-written rejections are observed) and which
peers fail connectivity verification. -/
structure ConvEnv where
  reload : Nat → List Candidate
  verifyFails : Nat → String → Bool

/-- Modelled from the spec: one verify/re-plan cycle per step, bounded by the
fuel.  Per iteration: an empty plan ends the loop; if every planned peer
passes verification the loop exits towards `INITIATE`; otherwise the
Allocation Planner is re-invoked with the same budget/size bounds and the
freshly reloaded candidate set and the loop restarts with the new plan (a
planner throw ends the loop).  Returns the sequence of plans attempted. -/
def convergePlans (env : ConvEnv) (budget defaultSize maxSize : Nat)
    (openPeerPubkeys : List String) (now : Int) :
    Nat → Nat → OpenPlan → List OpenPlan
  | 0, _, _ => []
  | fuel + 1, k, p =>
    p :: (if p.channels = [] then []
      else if p.channels.all (fun ch => ! env.verifyFails k ch.pubkey) then []
      else
        match createPlanRun budget defaultSize maxSize (env.reload (k + 1))
            openPeerPubkeys now with
        | Except.error _ => []
        | Except.ok q =>
          convergePlans env budget defaultSize maxSize openPeerPubkeys now fuel (k + 1) q)

/-- Modelled from the spec: the full convergence loop starting from the
initial plan, capped at `MAX_ITERATIONS` iterations. -/
def convergenceTrace (env : ConvEnv) (budget defaultSize maxSize : Nat)
    (openPeerPubkeys : List String) (now : Int) (p0 : OpenPlan) : List OpenPlan :=
  convergePlans env budget defaultSize maxSize openPeerPubkeys now MAX_ITERATIONS 0 p0

theorem convergePlans_spec (env : ConvEnv) (budget defaultSize maxSize : Nat)
    (openPeers : List String) (now : Int) :
    ∀ (fuel k : Nat) (p : OpenPlan),
      (convergePlans env budget defaultSize maxSize openPeers now fuel k p).length ≤ fuel ∧
      (∀ (i : Nat) (p' q' : OpenPlan),
        (convergePlans env budget defaultSize maxSize openPeers now fuel k p).get? i =
          some p' →
        (convergePlans env budget defaultSize maxSize openPeers now fuel k p).get? (i + 1) =
          some q' →
        (∃ ch ∈ p'.channels, env.verifyFails (k + i) ch.pubkey = true) ∧
        createPlanRun budget defaultSize maxSize (env.reload (k + i + 1)) openPeers now =
          Except.ok q') := by
  intro fuel
  induction fuel with
  | zero =>
    intro k p
    refine ⟨by simp [convergePlans], ?_⟩
    intro i p' q' hp hq
    simp [convergePlans] at hp
  | succ fuel ih =>
    intro k p
    by_cases hemp : p.channels = []
    · refine ⟨by simp [convergePlans, hemp], ?_⟩
      intro i p' q' hp hq
      cases i with
      | zero => simp [convergePlans, hemp] at hq
      | succ j => simp [convergePlans, hemp] at hq
    · by_cases hall : p.channels.all (fun ch => ! env.verifyFails k ch.pubkey) = true
      · refine ⟨by simp [convergePlans, hemp, hall], ?_⟩
        intro i p' q' hp hq
        cases i with
        | zero => simp [convergePlans, hemp, hall] at hq
        | succ j => simp [convergePlans, hemp, hall] at hq
      · have hfail : ∃ ch ∈ p.channels, env.verifyFails k ch.pubkey = true := by
          by_contra hcon
          push_neg at hcon
          apply hall
          rw [List.all_eq_true]
          intro ch hch
          cases hb : env.verifyFails k ch.pubkey
          · simp
          · exact absurd hb (hcon ch hch)
        rcases hcp : createPlanRun budget defaultSize maxSize (env.reload (k + 1))
            openPeers now with err | q
        · refine ⟨by simp [convergePlans, hemp, hall, hcp], ?_⟩
          intro i p' q' hp hq
          cases i with
          | zero => simp [convergePlans, hemp, hall, hcp] at hq
          | succ j => simp [convergePlans, hemp, hall, hcp] at hq
        · have htrace : convergePlans env budget defaultSize maxSize openPeers now
              (fuel + 1) k p =
              p :: convergePlans env budget defaultSize maxSize openPeers now fuel
                (k + 1) q := by
            simp [convergePlans, hemp, hall, hcp]
          obtain ⟨ihlen, ihpair⟩ := ih (k + 1) q
          constructor
          · rw [htrace]
            simpa using ihlen
          · intro i p' q' hp hq
            rw [htrace] at hp hq
            cases i with
            | zero =>
              have hp' : p' = p := by
                simp at hp
                exact hp.symm
              have hq0 : (convergePlans env budget defaultSize maxSize openPeers now fuel
                  (k + 1) q).get? 0 = some q' := by simpa using hq
              cases fuel with
              | zero => simp [convergePlans] at hq0
              | succ f =>
                have hq' : q' = q := by
                  rw [convergePlans] at hq0
                  simp at hq0
                  exact hq0.symm
                subst hp'
                subst hq'
                refine ⟨by simpa using hfail, by simpa using hcp⟩
            | succ j =>
              have hp' : (convergePlans env budget defaultSize maxSize openPeers now fuel
                  (k + 1) q).get? j = some p' := by simpa using hp
              have hq' : (convergePlans env budget defaultSize maxSize openPeers now fuel
                  (k + 1) q).get? (j + 1) = some q' := by simpa using hq
              obtain ⟨hfj, hcj⟩ := ihpair j p' q' hp' hq'
              have hidx : k + 1 + j = k + (j + 1) := by omega
              have hidx2 : k + 1 + j + 1 = k + (j + 1) + 1 := by omega
              rw [hidx] at hfj
              rw [hidx2] at hcj
              exact ⟨hfj, hcj⟩

/-- C1 (spec-modelled): every verify/re-plan cycle of the convergence loop
re-invokes `createPlan` with the same budget/size bounds and the freshly
reloaded candidate set, and the number of iterations never exceeds
`MAX_ITERATIONS = 5`: the attempted-plan trace has length at most 5, and
whenever the trace continues past a plan, some peer of that plan failed
verification and the next plan is exactly
`createPlan(budget, defaultSize, maxSize, reload(i+1), openPeerPubkeys)`. -/
theorem convergence_loop_bounded_replan (env : ConvEnv) (budget defaultSize maxSize : Nat)
    (openPeers : List String) (now : Int) (p0 : OpenPlan) :
    (convergenceTrace env budget defaultSize maxSize openPeers now p0).length ≤
      MAX_ITERATIONS ∧
    (∀ (i : Nat) (p q : OpenPlan),
      (convergenceTrace env budget defaultSize maxSize openPeers now p0).get? i = some p →
      (convergenceTrace env budget defaultSize maxSize openPeers now p0).get? (i + 1) =
        some q →
      (∃ ch ∈ p.channels, env.verifyFails i ch.pubkey = true) ∧
      createPlanRun budget defaultSize maxSize (env.reload (i + 1)) openPeers now =
        Except.ok q) := by
  obtain ⟨hlen, hpair⟩ :=
    convergePlans_spec env budget defaultSize maxSize openPeers now MAX_ITERATIONS 0 p0
  refine ⟨hlen, ?_⟩
  intro i p q hp hq
  have h := hpair i p q hp hq
  simpa using h

/-- Convergence oracle for the witness: every peer fails verification at
iteration 0, none later; the reloaded store always holds the second small
candidate. -/
def exConvEnv : ConvEnv :=
  ⟨fun _ => [exSmallCandidate2], fun k _ => k == 0⟩

/-- Initial plan of the convergence witness. -/
def exConvStart : OpenPlan :=
  ⟨0, 2000000, 1000000, 10000000, [⟨"pkS1", "smallPeer1", 1000000, false⟩],
    1000000, 997500⟩

/-- The re-planned successor in the convergence witness. -/
def exConvNext : OpenPlan :=
  ⟨0, 2000000, 1000000, 10000000, [⟨"pkS2", "smallPeer2", 1000000, false⟩],
    1000000, 997500⟩

/-- Witness for C1 at a concrete trace: iteration 0 fails verification and
the next attempted plan is the planner's output over the reloaded store. -/
theorem convergence_loop_bounded_replan_witness :
    (∃ ch ∈ exConvStart.channels, exConvEnv.verifyFails 0 ch.pubkey = true) ∧
    createPlanRun 2000000 1000000 10000000 (exConvEnv.reload 1) [] 0 =
      Except.ok exConvNext :=
  (convergence_loop_bounded_replan exConvEnv 2000000 1000000 10000000 [] 0
    exConvStart).2 0 exConvStart exConvNext rfl rfl

end Oatt
